import Mathlib

/-!
# Verification of the roteirizador waypoint pipeline

Shallow embedding of the core logic of `src/app/page.tsx` (grouping variant)
and `src/unnamed/part_000` (pass-through variant): row normalisation
(`parseRows`), the sequencing pipeline (`fetchOptimizedTrip`: start rotation,
geometry reconciliation, leg-distance annotation, CEP grouping), and the
component state transitions (`handleUpload`, `calculateRoute`,
`toggleDelivered`).

Modelling conventions:
* JavaScript numbers are modelled by `JsNum`: either a finite rational or
  `NaN`.  Coordinates returned by the oracle are plain rationals.
* Loosely-typed spreadsheet cells are `JsVal` (number or string); JS
  truthiness and `Number()` coercion are modelled explicitly.
* `Array.prototype.sort` with the consistent comparator `idxA - idxB` is a
  stable sort, modelled by `List.insertionSort` (stable, structural).
* The source mutates `AddressPoint` objects in place; the value-level
  pipeline (`assignDistances`) produces the same observable output.  A
  separate heap-style model (`fetchOptimizedTripStore`) keeps the object
  store explicit in order to reason about in-place mutation.
-/

/-- A JavaScript number: either a finite rational or `NaN`.  (The program
produces no infinities; any non-finite value is collapsed to `nan`.) -/
inductive JsNum where
  | nan : JsNum
  | num : ℚ → JsNum
deriving DecidableEq, Repr

/-- Finiteness of a JS number. -/
def JsNum.isFin : JsNum → Bool
  | .nan => false
  | .num _ => true

/-- JS subtraction: any operation on `NaN` yields `NaN`. -/
def JsNum.sub : JsNum → JsNum → JsNum
  | .num a, .num b => .num (a - b)
  | _, _ => .nan

/-- `Math.abs`, propagating `NaN`. -/
def JsNum.abs : JsNum → JsNum
  | .num a => .num (if a < 0 then -a else a)
  | .nan => .nan

/-- JS `<` against a finite constant: comparisons involving `NaN` are false. -/
def JsNum.ltc : JsNum → ℚ → Bool
  | .num a, c => decide (a < c)
  | .nan, _ => false

/-- A loosely-typed spreadsheet cell value: a number or a string. -/
inductive JsVal where
  | num : JsNum → JsVal
  | str : String → JsVal
deriving DecidableEq, Repr

/-- JS truthiness of a cell value: `0`, `NaN` and `""` are falsy. -/
def JsVal.truthy : JsVal → Bool
  | .num .nan => false
  | .num (.num q) => q != 0
  | .str s => s != ""

/-- Value of a digit string as a natural number folded into a rational. -/
def digitsVal (cs : List Char) : ℚ :=
  cs.foldl (fun acc c => acc * 10 + ((c.toNat - 48 : ℕ) : ℚ)) 0

/-- Unsigned decimal literal: digits with an optional fractional part. -/
def parseDecCore (t : List Char) : Option ℚ :=
  match t.span (·.isDigit) with
  | (ip, []) => if ip.isEmpty then none else some (digitsVal ip)
  | (ip, '.' :: fp) =>
      if fp.all (·.isDigit) && (!ip.isEmpty || !fp.isEmpty) then
        some (digitsVal ip + digitsVal fp / ((10 : ℚ) ^ fp.length))
      else none
  | _ => none

/-- Model of JS `Number()` on strings, for plain decimal literals: the empty
string is `0`, an optionally negated decimal literal is its value, and any
other string is `NaN`.  (Exotic literal forms — hex, exponents, surrounding
whitespace, a leading plus — are conservatively `NaN`; the program's data and
the claims only involve decimal or non-numeric strings.) -/
def strToNum (s : String) : JsNum :=
  match s.data with
  | [] => .num 0
  | '-' :: t => match parseDecCore t with
      | some q => .num (-q)
      | none => .nan
  | t => match parseDecCore t with
      | some q => .num q
      | none => .nan

/-- JS `Number()` coercion of a cell value. -/
def JsVal.toNumber : JsVal → JsNum
  | .num n => n
  | .str s => strToNum s

/-- One normalized waypoint (`AddressPoint` in the source). -/
structure AddressPoint where
  stop : JsNum
  sequence : JsNum
  lat : JsNum
  lng : JsNum
  address : String := ""
  spx : Option String := none
  cep : Option String := none
  distanceFromPrev : Option ℚ := none
deriving DecidableEq, Repr

/-- One raw spreadsheet row (`RawRow` in the source).  Field
`destinationAddress` stands for the `"Destination Address"` column, `spxTN`
for `"SPX TN"` and `zipcode` for `"Zipcode/Postal code"`; those three are
text columns. -/
structure RawRow where
  Stop : Option JsVal := none
  Sequence : Option JsVal := none
  Latitude : Option JsVal := none
  Longitude : Option JsVal := none
  destinationAddress : Option String := none
  spxTN : Option String := none
  zipcode : Option String := none
deriving DecidableEq, Repr

/-- Truthiness of a possibly-missing cell (`r.Stop && ...`). -/
def fieldTruthy : Option JsVal → Bool
  | none => false
  | some v => v.truthy

/-- `Number(x)` on a possibly-missing cell: `Number(undefined)` is `NaN`. -/
def fieldNumber : Option JsVal → JsNum
  | none => .nan
  | some v => v.toNumber

/-- `x ? String(x) : undefined` on a text column: the empty string (and a
missing value) become "absent". -/
def optStr : Option String → Option String
  | some s => if s != "" then some s else none
  | none => none

/-- Row Normalizer (`parseRows`, `src/app/page.tsx` lines 40–52): keeps rows
whose `Stop`, `Sequence`, `Latitude` and `Longitude` are all truthy and
coerces the kept fields. -/
def parseRows (rows : List RawRow) : List AddressPoint :=
  (rows.filter fun r =>
      fieldTruthy r.Stop && fieldTruthy r.Sequence &&
      fieldTruthy r.Latitude && fieldTruthy r.Longitude).map fun r =>
    { stop := fieldNumber r.Stop
      sequence := fieldNumber r.Sequence
      lat := fieldNumber r.Latitude
      lng := fieldNumber r.Longitude
      address := r.destinationAddress.getD ""
      spx := optStr r.spxTN
      cep := optStr r.zipcode }

/-- One leg of the oracle response; the oracle interface (§6) guarantees a
numeric `distance` field in meters. -/
structure Leg where
  distance : ℚ
deriving DecidableEq, Repr

/-- One trip of the oracle response.  `geometry` is the GeoJSON coordinate
list (`[lng, lat]` pairs); it is `none` when `trip.geometry` or
`trip.geometry.coordinates` is absent, and `legs` is `none` when `trip.legs`
is absent. -/
structure Trip where
  geometry : Option (List (ℚ × ℚ)) := none
  legs : Option (List Leg) := none
deriving DecidableEq, Repr

/-- The decoded oracle response body; `trips` is `none` when the field is
missing. -/
structure TripResponse where
  trips : Option (List Trip) := none
deriving DecidableEq, Repr

/-- `data.trips?.[0]`. -/
def tripOf (data : TripResponse) : Option Trip :=
  match data.trips with
  | some l => l.head?
  | none => none

/-- `trip?.geometry?.coordinates?.map((c) => [c[1], c[0]]) ?? []`: the path
geometry as `(lat, lng)` pairs. -/
def tripGeometry (data : TripResponse) : List (ℚ × ℚ) :=
  (((tripOf data).bind Trip.geometry).getD []).map fun c => (c.2, c.1)

/-- `trip?.legs ?? []`. -/
def tripLegs (data : TripResponse) : List Leg :=
  ((tripOf data).bind Trip.legs).getD []

/-- `legs[k]?.distance ?? 0`. -/
def legDist (legs : List Leg) (k : Nat) : ℚ :=
  ((legs[k]?).map Leg.distance).getD 0

/-- The tolerance match of one geometry coordinate against one waypoint:
`Math.abs(g[0] - a.lat) < 0.001 && Math.abs(g[1] - a.lng) < 0.001`. -/
def near (g : ℚ × ℚ) (p : AddressPoint) : Bool :=
  ((JsNum.num g.1).sub p.lat).abs.ltc (1/1000) &&
  ((JsNum.num g.2).sub p.lng).abs.ltc (1/1000)

/-- `geometry.findIndex(...)`: position of the first geometry coordinate
within tolerance, `-1` if none. -/
def geoIdx (geometry : List (ℚ × ℚ)) (p : AddressPoint) : Int :=
  match geometry.findIdx? (fun g => near g p) with
  | some i => Int.ofNat i
  | none => -1

/-- Order Reconciler (`[...reordered].sort((a, b) => idxA - idxB)`):
JS `sort` with the consistent comparator `idxA - idxB` is a stable sort by
the recovered geometry position, modelled by the stable `insertionSort`. -/
def orderByGeometry (geometry : List (ℚ × ℚ)) (pts : List AddressPoint) :
    List AddressPoint :=
  List.insertionSort (fun a b => geoIdx geometry a ≤ geoIdx geometry b) pts

/-- Distance Annotator (`src/app/page.tsx` lines 87–90): each non-first
waypoint of the reconciled order receives `legs[i-1]?.distance ?? 0`.  The
source mutates the records in place; this is the value-level result. -/
def assignDistances (legs : List Leg) (ordered : List AddressPoint) :
    List AddressPoint :=
  ordered.enum.map fun ip =>
    if ip.1 = 0 then ip.2
    else { ip.2 with distanceFromPrev := some (legDist legs (ip.1 - 1)) }

/-- JS truthiness of the optional `cep` field (`!point.cep`): a missing code
and the empty string are both falsy. -/
def cepTruthy : Option String → Bool
  | none => false
  | some s => s != ""

/-- One iteration of the grouping scan (`src/app/page.tsx` lines 96–113),
with accumulator `(groupedByCep, visited)`. -/
def groupStep (ordered : List AddressPoint)
    (acc : List AddressPoint × List Nat) (ip : Nat × AddressPoint) :
    List AddressPoint × List Nat :=
  if ip.1 ∈ acc.2 then acc
  else if !cepTruthy ip.2.cep then (acc.1 ++ [ip.2], acc.2 ++ [ip.1])
  else
    let same := ordered.enum.filter fun jq => jq.2.cep == ip.2.cep
    (acc.1 ++ same.map Prod.snd, acc.2 ++ same.map Prod.fst)

/-- Grouping Pass (`src/app/page.tsx` lines 92–113): forward scan over the
annotated reconciled order, emitting each not-yet-visited waypoint either
alone (falsy `cep`) or together with every waypoint sharing its `cep`. -/
def groupPass (ordered : List AddressPoint) : List AddressPoint :=
  (ordered.enum.foldl (groupStep ordered) ([], [])).1

/-- `[points[startIndex], ...points.filter((_, i) => i !== startIndex)]`.
An out-of-range `startIndex` is undefined behaviour in the source (the
request would be malformed); here the missing head is dropped and theorems
that need it assume `startIndex < points.length`. -/
def reorderStart (points : List AddressPoint) (startIndex : Nat) :
    List AddressPoint :=
  (points[startIndex]?).toList ++
    (points.enum.filter fun ip => ip.1 != startIndex).map Prod.snd

/-- Sequencing pipeline of `src/app/page.tsx` (lines 56–116): short-circuit
on fewer than two waypoints, start rotation, geometry reconciliation,
leg-distance annotation, CEP grouping.  The oracle response is passed as the
decoded body `data`. -/
def fetchOptimizedTrip (points : List AddressPoint) (startIndex : Nat)
    (data : TripResponse) : List AddressPoint × List (ℚ × ℚ) :=
  if points.length < 2 then (points, [])
  else
    let geometry := tripGeometry data
    let orderedByGeometry := orderByGeometry geometry (reorderStart points startIndex)
    let withDist := assignDistances (tripLegs data) orderedByGeometry
    (groupPass withDist, geometry)

/-- Sequencing pipeline of `src/unnamed/part_000` (lines 54–93): identical
to `fetchOptimizedTrip` except that the reconciled, annotated order is
returned directly, with no grouping pass.  (That variant's `AddressPoint`
has no `cep` field; the field is simply never read here.) -/
def fetchOptimizedTripNoGroup (points : List AddressPoint) (startIndex : Nat)
    (data : TripResponse) : List AddressPoint × List (ℚ × ℚ) :=
  if points.length < 2 then (points, [])
  else
    let geometry := tripGeometry data
    let ordered := orderByGeometry geometry (reorderStart points startIndex)
    (assignDistances (tripLegs data) ordered, geometry)

/-- The component state of `LogisticsStopsApp` relevant to the claims. -/
structure AppState where
  points : List AddressPoint := []
  route : List AddressPoint := []
  polyline : List (ℚ × ℚ) := []
  startIndex : Nat := 0
  delivered : Finset ℕ := ∅
deriving DecidableEq

/-- `handleUpload`'s `reader.onload` body (lines 154–163), after the
spreadsheet has been decoded to `json`: set the parsed points, clear the
route and clear the delivered set. -/
def handleUpload (s : AppState) (json : List RawRow) : AppState :=
  { s with points := parseRows json, route := [], delivered := ∅ }

/-- `calculateRoute` (lines 168–172) on a successful oracle call: replace
route and polyline; nothing else changes. -/
def calculateRoute (s : AppState) (data : TripResponse) : AppState :=
  let result := fetchOptimizedTrip s.points s.startIndex data
  { s with route := result.1, polyline := result.2 }

/-- `toggleDelivered` (lines 174–178). -/
def toggleDelivered (s : AppState) (index : ℕ) : AppState :=
  { s with delivered :=
      if index ∈ s.delivered then s.delivered.erase index
      else insert index s.delivered }

/-- The fallible sequencing call: the `fetch`/`res.json()` promise chain can
reject (network error, or a body that is not JSON), and nothing inside
`fetchOptimizedTrip` catches the rejection.  A non-2xx response whose body
decodes as JSON does not reject — `res.ok` is never checked — and arrives
here as `.ok` with the decoded body.  The short-circuit happens before the
network call, so it succeeds regardless of the response. -/
def fetchOptimizedTripE (points : List AddressPoint) (startIndex : Nat)
    (resp : Except String TripResponse) :
    Except String (List AddressPoint × List (ℚ × ℚ)) :=
  if points.length < 2 then .ok (points, [])
  else resp.map (fetchOptimizedTrip points startIndex)

/-- `calculateRoute` against a fallible oracle call: `await` of a rejected
promise aborts the function before `setRoute`/`setPolyline` run, so the
failure propagates and the state is not updated. -/
def calculateRouteE (s : AppState) (resp : Except String TripResponse) :
    Except String AppState :=
  (fetchOptimizedTripE s.points s.startIndex resp).map fun r =>
    { s with route := r.1, polyline := r.2 }

/-- The state visible after a `calculateRoute` attempt: the new state on
success, the old state (previous route and polyline intact) on failure. -/
def calculateRouteRun (s : AppState) (resp : Except String TripResponse) :
    AppState :=
  match calculateRouteE s resp with
  | .ok s2 => s2
  | .error _ => s

/-!
## Heap-style model of the in-place mutation

In the source, `points`, every previously computed route and the result of
`fetchOptimizedTrip` all hold references to the *same* `AddressPoint`
objects, and `p.distanceFromPrev = ...` mutates them in place.  Here the
object store is a `List AddressPoint` and routes are lists of store indices;
`fetchOptimizedTripStore` returns the store as mutated by the run together
with the index list of the route it produces.
-/

/-- `geoIdx` of the record at a store index (out-of-range indices never
occur on the runs considered; they match nothing). -/
def geoIdxAt (store : List AddressPoint) (geometry : List (ℚ × ℚ))
    (i : Nat) : Int :=
  match store[i]? with
  | some p => geoIdx geometry p
  | none => -1

/-- `cep` of the record at a store index. -/
def cepAt (store : List AddressPoint) (i : Nat) : Option String :=
  ((store[i]?).map AddressPoint.cep).getD none

/-- Start rotation on store indices. -/
def reorderStartIdx (idxs : List Nat) (startIndex : Nat) : List Nat :=
  (idxs[startIndex]?).toList ++
    (idxs.enum.filter fun ip => ip.1 != startIndex).map Prod.snd

/-- The in-place distance annotation (`p.distanceFromPrev = legs[i-1]?.distance ?? 0`
over the reconciled order `recon` of store indices): mutates the pointed
records, leaving the record at the first reconciled position untouched. -/
def storeAssignStep (legs : List Leg) (st : List AddressPoint)
    (ii : Nat × Nat) : List AddressPoint :=
  if ii.1 = 0 then st
  else
    match st[ii.2]? with
    | some p => st.set ii.2 { p with distanceFromPrev := some (legDist legs ii.1.pred) }
    | none => st

def storeAssignDistances (store : List AddressPoint) (legs : List Leg)
    (recon : List Nat) : List AddressPoint :=
  recon.enum.foldl (storeAssignStep legs) store

/-- Grouping pass on store indices, reading `cep` through the store. -/
def groupPassIdx (store : List AddressPoint) (ordered : List Nat) : List Nat :=
  (ordered.enum.foldl (fun acc ip =>
    if ip.1 ∈ acc.2 then acc
    else if !cepTruthy (cepAt store ip.2) then (acc.1 ++ [ip.2], acc.2 ++ [ip.1])
    else
      let same := ordered.enum.filter fun jq => cepAt store jq.2 == cepAt store ip.2
      (acc.1 ++ same.map Prod.snd, acc.2 ++ same.map Prod.fst)) ([], [])).1

/-- Heap-style `fetchOptimizedTrip`: takes the current store and the index
list held by the `points` state, returns the store after the run's in-place
mutations, the index list of the produced route, and the geometry. -/
def fetchOptimizedTripStore (store : List AddressPoint) (pointIdxs : List Nat)
    (startIndex : Nat) (data : TripResponse) :
    List AddressPoint × List Nat × List (ℚ × ℚ) :=
  if pointIdxs.length < 2 then (store, pointIdxs, [])
  else
    let geometry := tripGeometry data
    let reordered := reorderStartIdx pointIdxs startIndex
    let recon := List.insertionSort
      (fun a b => geoIdxAt store geometry a ≤ geoIdxAt store geometry b) reordered
    let store2 := storeAssignDistances store (tripLegs data) recon
    (store2, groupPassIdx store2 recon, geometry)

/-!
## Closed form of the grouping pass

The scan emits one block per *leader*: a position whose `cep` is falsy
(emitted alone), or the first position carrying its (truthy) `cep` (emitting
every position with that `cep`).  `groupPass` equals the concatenation of the
leaders' blocks in scan order, from which all grouping properties follow.
-/

/-- All enumerated waypoints whose `cep` equals `c`. -/
def sameCep (ordered : List AddressPoint) (c : Option String) :
    List (Nat × AddressPoint) :=
  ordered.enum.filter fun jq => jq.2.cep == c

/-- A scan position at which the grouping pass emits a block: its `cep` is
falsy, or it is the first position carrying its `cep`. -/
def isLeader (ordered : List AddressPoint) (ip : Nat × AddressPoint) : Bool :=
  !cepTruthy ip.2.cep ||
    ((sameCep ordered ip.2.cep).head?.map Prod.fst == some ip.1)

/-- The block the grouping pass emits at a leader. -/
def blockOf (ordered : List AddressPoint) (ip : Nat × AddressPoint) :
    List (Nat × AddressPoint) :=
  if cepTruthy ip.2.cep then sameCep ordered ip.2.cep else [ip]

/-- Closed form of the grouping pass, at the enumerated level. -/
def leadBlocks (ordered : List AddressPoint) : List (Nat × AddressPoint) :=
  (ordered.enum.filter (isLeader ordered)).flatMap (blockOf ordered)

/-- Closed form of the grouping pass. -/
def groupSpec (ordered : List AddressPoint) : List AddressPoint :=
  (leadBlocks ordered).map Prod.snd

theorem enum_pairwise_fst_lt {α : Type} (l : List α) :
    l.enum.Pairwise fun a b => a.1 < b.1 := by
  have h := List.pairwise_lt_range l.length
  rw [← List.enum_map_fst l] at h
  exact List.pairwise_map.1 h

theorem enum_nodup {α : Type} (l : List α) : l.enum.Nodup := by
  refine (enum_pairwise_fst_lt l).imp ?_
  intro a b hlt heq
  rw [heq] at hlt
  exact lt_irrefl _ hlt

theorem enum_fst_inj {α : Type} {l : List α} {x y : Nat × α}
    (hx : x ∈ l.enum) (hy : y ∈ l.enum) (h : x.1 = y.1) : x = y := by
  obtain ⟨x1, x2⟩ := x
  obtain ⟨y1, y2⟩ := y
  simp only at h
  subst h
  rw [List.mem_enum_iff_getElem?] at hx hy
  simp only at hx hy
  rw [hx] at hy
  cases hy
  rfl

theorem mem_sameCep {l : List AddressPoint} {c : Option String}
    {x : Nat × AddressPoint} :
    x ∈ sameCep l c ↔ x ∈ l.enum ∧ x.2.cep = c := by
  unfold sameCep
  rw [List.mem_filter]
  exact and_congr_right fun _ => beq_iff_eq

theorem sameCep_pairwise (l : List AddressPoint) (c : Option String) :
    (sameCep l c).Pairwise fun a b => a.1 < b.1 :=
  (enum_pairwise_fst_lt l).sublist (List.filter_sublist _)

theorem head?_fst_le {xs : List (Nat × AddressPoint)} {hd x : Nat × AddressPoint}
    (hp : xs.Pairwise fun a b => a.1 < b.1) (hh : xs.head? = some hd)
    (hx : x ∈ xs) : hd.1 ≤ x.1 := by
  cases xs with
  | nil => cases hh
  | cons a t =>
    cases hh
    rcases List.mem_cons.1 hx with h | h
    · rw [h]
    · exact le_of_lt ((List.pairwise_cons.1 hp).1 x h)

theorem isLeader_iff {l : List AddressPoint} {ip : Nat × AddressPoint} :
    isLeader l ip = true ↔
      cepTruthy ip.2.cep = false ∨
      (sameCep l ip.2.cep).head?.map Prod.fst = some ip.1 := by
  unfold isLeader
  simp only [Bool.or_eq_true, Bool.not_eq_true', beq_iff_eq]

theorem leader_unique {l : List AddressPoint} {ip jq : Nat × AddressPoint}
    (hip : ip ∈ l.enum) (hjq : jq ∈ l.enum)
    (hLi : isLeader l ip = true) (hLj : isLeader l jq = true)
    (ht : cepTruthy ip.2.cep = true) (hc : ip.2.cep = jq.2.cep) : ip = jq := by
  rcases isLeader_iff.1 hLi with h | h
  · rw [ht] at h; cases h
  rcases isLeader_iff.1 hLj with h2 | h2
  · rw [← hc, ht] at h2; cases h2
  rw [← hc] at h2
  rw [h] at h2
  exact enum_fst_inj hip hjq (Option.some.inj h2)

theorem exists_leader {l : List AddressPoint} {x : Nat × AddressPoint}
    (hx : x ∈ l.enum) :
    ∃ b, b ∈ l.enum ∧ isLeader l b = true ∧ x ∈ blockOf l b := by
  cases ht : cepTruthy x.2.cep with
  | false =>
    refine ⟨x, hx, isLeader_iff.2 (Or.inl ht), ?_⟩
    unfold blockOf
    rw [ht]
    simp
  | true =>
    have hxc : x ∈ sameCep l x.2.cep := mem_sameCep.2 ⟨hx, rfl⟩
    obtain ⟨h0, hh⟩ : ∃ h0, (sameCep l x.2.cep).head? = some h0 := by
      cases hsc : sameCep l x.2.cep with
      | nil => rw [hsc] at hxc; cases hxc
      | cons a t => exact ⟨a, rfl⟩
    have hh0mem : h0 ∈ sameCep l x.2.cep := List.mem_of_mem_head? hh
    obtain ⟨hh0e, hh0c⟩ := mem_sameCep.1 hh0mem
    refine ⟨h0, hh0e, ?_, ?_⟩
    · apply isLeader_iff.2
      right
      rw [hh0c, hh]
      rfl
    · unfold blockOf
      rw [hh0c, ht]
      simpa using hxc

theorem mem_enum_of_mem_blockOf {l : List AddressPoint}
    {b x : Nat × AddressPoint} (hb : b ∈ l.enum) (hx : x ∈ blockOf l b) :
    x ∈ l.enum := by
  unfold blockOf at hx
  split at hx
  · exact (mem_sameCep.1 hx).1
  · rw [List.mem_singleton.1 hx]
    exact hb

theorem blockOf_disjoint {l : List AddressPoint} {b₁ b₂ : Nat × AddressPoint}
    (h1 : b₁ ∈ l.enum) (h2 : b₂ ∈ l.enum)
    (hL1 : isLeader l b₁ = true) (hL2 : isLeader l b₂ = true) (hne : b₁ ≠ b₂) :
    ∀ x, x ∈ blockOf l b₁ → x ∉ blockOf l b₂ := by
  intro x hx1 hx2
  unfold blockOf at hx1 hx2
  cases t1 : cepTruthy b₁.2.cep with
  | true =>
    rw [t1] at hx1
    simp only [if_pos] at hx1
    have hc1 : x.2.cep = b₁.2.cep := (mem_sameCep.1 hx1).2
    cases t2 : cepTruthy b₂.2.cep with
    | true =>
      rw [t2] at hx2
      simp only [if_pos] at hx2
      have hc2 : x.2.cep = b₂.2.cep := (mem_sameCep.1 hx2).2
      exact hne (leader_unique h1 h2 hL1 hL2 t1 (hc1 ▸ hc2))
    | false =>
      rw [t2] at hx2
      simp only [Bool.false_eq_true, if_false] at hx2
      rw [List.mem_singleton.1 hx2] at hc1
      rw [hc1] at t2
      rw [t1] at t2
      cases t2
  | false =>
    rw [t1] at hx1
    simp only [Bool.false_eq_true, if_false] at hx1
    have hxb1 : x = b₁ := List.mem_singleton.1 hx1
    cases t2 : cepTruthy b₂.2.cep with
    | true =>
      rw [t2] at hx2
      simp only [if_pos] at hx2
      have hc2 : x.2.cep = b₂.2.cep := (mem_sameCep.1 hx2).2
      rw [hxb1] at hc2
      rw [hc2] at t1
      rw [t2] at t1
      cases t1
    | false =>
      rw [t2] at hx2
      simp only [Bool.false_eq_true, if_false] at hx2
      exact hne (hxb1 ▸ List.mem_singleton.1 hx2 ▸ rfl)

theorem leadBlocks_nodup (l : List AddressPoint) : (leadBlocks l).Nodup := by
  unfold leadBlocks
  apply List.nodup_flatMap.2
  constructor
  · intro b hb
    unfold blockOf
    split
    · exact ((enum_nodup l).sublist (List.filter_sublist _) : (sameCep l b.2.cep).Nodup)
    · simp
  · have hnd : (l.enum.filter (isLeader l)).Nodup := (enum_nodup l).filter _
    refine hnd.imp_of_mem ?_
    intro a b ha hb hne
    obtain ⟨hae, hal⟩ := List.mem_filter.1 ha
    obtain ⟨hbe, hbl⟩ := List.mem_filter.1 hb
    intro x hxa hxb
    exact blockOf_disjoint hae hbe hal hbl hne x hxa hxb

theorem mem_leadBlocks_iff {l : List AddressPoint} {x : Nat × AddressPoint} :
    x ∈ leadBlocks l ↔ x ∈ l.enum := by
  constructor
  · intro hx
    obtain ⟨b, hb, hxb⟩ := List.mem_flatMap.1 hx
    exact mem_enum_of_mem_blockOf (List.mem_filter.1 hb).1 hxb
  · intro hx
    obtain ⟨b, hbe, hbl, hxb⟩ := exists_leader hx
    exact List.mem_flatMap.2 ⟨b, List.mem_filter.2 ⟨hbe, hbl⟩, hxb⟩

theorem leadBlocks_perm (l : List AddressPoint) :
    List.Perm (leadBlocks l) l.enum :=
  (List.perm_ext_iff_of_nodup (leadBlocks_nodup l) (enum_nodup l)).2
    fun _ => mem_leadBlocks_iff

theorem groupSpec_perm (l : List AddressPoint) : List.Perm (groupSpec l) l := by
  have h := (leadBlocks_perm l).map Prod.snd
  rwa [List.enum_map_snd] at h

theorem groupPass_fold_inv (l : List AddressPoint) :
    ∀ (suf pre : List (Nat × AddressPoint)), l.enum = pre ++ suf →
    suf.foldl (groupStep l)
      (((pre.filter (isLeader l)).flatMap (blockOf l)).map Prod.snd,
       ((pre.filter (isLeader l)).flatMap (blockOf l)).map Prod.fst)
    = ((leadBlocks l).map Prod.snd, (leadBlocks l).map Prod.fst) := by
  intro suf
  induction suf with
  | nil =>
    intro pre hpre
    rw [List.append_nil] at hpre
    subst hpre
    rfl
  | cons ip suf2 IH =>
    intro pre hpre
    have hip_mem : ip ∈ l.enum := by
      rw [hpre]
      exact List.mem_append_right _ (List.mem_cons_self _ _)
    have hfst : ip.1 = pre.length := by
      have h1 : l.enum[pre.length]? = some ip := by
        rw [hpre, List.getElem?_append_right (le_refl pre.length)]
        simp
      rw [List.getElem?_enum] at h1
      cases h3 : l[pre.length]? with
      | none => rw [h3] at h1; cases h1
      | some a =>
        rw [h3] at h1
        simp only [Option.map_some'] at h1
        rw [← Option.some.inj h1]
    have hpre_lt : ∀ y ∈ pre, y.1 < ip.1 := by
      intro y hy
      have hp := enum_pairwise_fst_lt l
      rw [hpre] at hp
      exact (List.pairwise_append.1 hp).2.2 y hy ip (List.mem_cons_self _ _)
    have hsuf_gt : ∀ z ∈ suf2, ip.1 < z.1 := by
      have hp := enum_pairwise_fst_lt l
      rw [hpre] at hp
      exact (List.pairwise_cons.1 (List.pairwise_append.1 hp).2.1).1
    have hvis : ∀ k : Nat,
        (k ∈ ((pre.filter (isLeader l)).flatMap (blockOf l)).map Prod.fst) ↔
        ∃ b ∈ pre, isLeader l b = true ∧ ∃ x ∈ blockOf l b, x.1 = k := by
      intro k
      simp only [List.mem_map, List.mem_flatMap, List.mem_filter]
      constructor
      · rintro ⟨x, ⟨b, ⟨hbp, hbl⟩, hxb⟩, hxk⟩
        exact ⟨b, hbp, hbl, x, hxb, hxk⟩
      · rintro ⟨b, hbp, hbl, x, hxb, hxk⟩
        exact ⟨x, ⟨b, ⟨hbp, hbl⟩, hxb⟩, hxk⟩
    have hkey : (ip.1 ∈ ((pre.filter (isLeader l)).flatMap (blockOf l)).map Prod.fst) ↔
        isLeader l ip = false := by
      constructor
      · intro hin
        obtain ⟨b, hbp, hbl, x, hxb, hxk⟩ := (hvis ip.1).1 hin
        have hbe : b ∈ l.enum := by
          rw [hpre]; exact List.mem_append_left _ hbp
        have hxe : x ∈ l.enum := mem_enum_of_mem_blockOf hbe hxb
        have hxip : x = ip := enum_fst_inj hxe hip_mem hxk
        subst hxip
        cases ht : cepTruthy b.2.cep with
        | true =>
          have hxc : x ∈ sameCep l b.2.cep := by
            unfold blockOf at hxb
            rw [ht] at hxb
            simpa using hxb
          have hcep : x.2.cep = b.2.cep := (mem_sameCep.1 hxc).2
          rcases isLeader_iff.1 hbl with hb | hb
          · rw [ht] at hb; cases hb
          cases hLip : isLeader l x with
          | false => rfl
          | true =>
            exfalso
            rcases isLeader_iff.1 hLip with h | h
            · rw [hcep, ht] at h; cases h
            · rw [hcep, hb] at h
              have hbx : b = x := enum_fst_inj hbe hxe (Option.some.inj h)
              have := hpre_lt b hbp
              rw [hbx] at this
              exact lt_irrefl _ this
        | false =>
          exfalso
          unfold blockOf at hxb
          rw [ht] at hxb
          simp only [Bool.false_eq_true, if_false] at hxb
          have hxb' : x = b := List.mem_singleton.1 hxb
          have := hpre_lt b hbp
          rw [← hxb'] at this
          exact lt_irrefl _ this
      · intro hnl
        have ht : cepTruthy ip.2.cep = true := by
          cases h : cepTruthy ip.2.cep with
          | false =>
            have h2 : isLeader l ip = true := isLeader_iff.2 (Or.inl h)
            rw [hnl] at h2; cases h2
          | true => rfl
        have hipc : ip ∈ sameCep l ip.2.cep := mem_sameCep.2 ⟨hip_mem, rfl⟩
        obtain ⟨h0, hh⟩ : ∃ h0, (sameCep l ip.2.cep).head? = some h0 := by
          cases hsc : sameCep l ip.2.cep with
          | nil => rw [hsc] at hipc; cases hipc
          | cons a t => exact ⟨a, rfl⟩
        have hh0mem : h0 ∈ sameCep l ip.2.cep := List.mem_of_mem_head? hh
        obtain ⟨hh0e, hh0c⟩ := mem_sameCep.1 hh0mem
        have hle : h0.1 ≤ ip.1 := head?_fst_le (sameCep_pairwise l _) hh hipc
        have hneq : h0.1 ≠ ip.1 := by
          intro he
          have he2 : h0 = ip := enum_fst_inj hh0e hip_mem he
          have h2 : isLeader l ip = true := by
            apply isLeader_iff.2
            right
            rw [hh, he2]
            rfl
          rw [hnl] at h2; cases h2
        have hlt : h0.1 < ip.1 := lt_of_le_of_ne hle hneq
        have hh0pre : h0 ∈ pre := by
          have he := hh0e
          rw [hpre] at he
          rcases List.mem_append.1 he with h | h
          · exact h
          · rcases List.mem_cons.1 h with h | h
            · rw [h] at hlt
              exact absurd hlt (lt_irrefl _)
            · have := hsuf_gt h0 h
              omega
        have hh0l : isLeader l h0 = true := by
          apply isLeader_iff.2
          right
          rw [hh0c, hh]
          rfl
        apply (hvis ip.1).2
        refine ⟨h0, hh0pre, hh0l, ip, ?_, rfl⟩
        unfold blockOf
        rw [hh0c, ht]
        simpa using hipc
    rw [List.foldl_cons]
    cases hL : isLeader l ip with
    | false =>
      have hinvis : ip.1 ∈ ((pre.filter (isLeader l)).flatMap (blockOf l)).map Prod.fst :=
        hkey.2 hL
      have hstep : groupStep l
          (((pre.filter (isLeader l)).flatMap (blockOf l)).map Prod.snd,
           ((pre.filter (isLeader l)).flatMap (blockOf l)).map Prod.fst) ip
          = (((pre.filter (isLeader l)).flatMap (blockOf l)).map Prod.snd,
             ((pre.filter (isLeader l)).flatMap (blockOf l)).map Prod.fst) := by
        unfold groupStep
        rw [if_pos hinvis]
      rw [hstep]
      have hfilter : ((pre ++ [ip]).filter (isLeader l)) = pre.filter (isLeader l) := by
        rw [List.filter_append]
        simp [hL]
      have := IH (pre ++ [ip]) (by rw [hpre]; simp)
      rw [hfilter] at this
      exact this
    | true =>
      have hnotvis : ip.1 ∉ ((pre.filter (isLeader l)).flatMap (blockOf l)).map Prod.fst := by
        intro h
        rw [hkey.1 h] at hL
        cases hL
      have hfilter : ((pre ++ [ip]).filter (isLeader l))
          = pre.filter (isLeader l) ++ [ip] := by
        rw [List.filter_append]
        simp [hL]
      have hIH := IH (pre ++ [ip]) (by rw [hpre]; simp)
      rw [hfilter, List.flatMap_append, List.map_append, List.map_append] at hIH
      cases ht : cepTruthy ip.2.cep with
      | false =>
        have hstep : groupStep l
            (((pre.filter (isLeader l)).flatMap (blockOf l)).map Prod.snd,
             ((pre.filter (isLeader l)).flatMap (blockOf l)).map Prod.fst) ip
            = (((pre.filter (isLeader l)).flatMap (blockOf l)).map Prod.snd ++ [ip.2],
               ((pre.filter (isLeader l)).flatMap (blockOf l)).map Prod.fst ++ [ip.1]) := by
          unfold groupStep
          rw [if_neg hnotvis, ht]
          rfl
        rw [hstep]
        have hblock : ([ip].flatMap (blockOf l)) = [ip] := by
          simp [blockOf, ht]
        rw [hblock] at hIH
        exact hIH
      | true =>
        have hstep : groupStep l
            (((pre.filter (isLeader l)).flatMap (blockOf l)).map Prod.snd,
             ((pre.filter (isLeader l)).flatMap (blockOf l)).map Prod.fst) ip
            = (((pre.filter (isLeader l)).flatMap (blockOf l)).map Prod.snd
                 ++ (sameCep l ip.2.cep).map Prod.snd,
               ((pre.filter (isLeader l)).flatMap (blockOf l)).map Prod.fst
                 ++ (sameCep l ip.2.cep).map Prod.fst) := by
          unfold groupStep
          rw [if_neg hnotvis, ht]
          rfl
        rw [hstep]
        have hblock : ([ip].flatMap (blockOf l)) = sameCep l ip.2.cep := by
          simp [blockOf, ht]
        rw [hblock] at hIH
        exact hIH

theorem groupPass_eq_groupSpec (l : List AddressPoint) :
    groupPass l = groupSpec l := by
  unfold groupPass groupSpec
  have h := groupPass_fold_inv l l.enum [] (by simp)
  simp only [List.filter_nil, List.flatMap_nil, List.map_nil] at h
  rw [h]

theorem mem_of_getElem?_some {α : Type} {l : List α} {i : Nat} {a : α}
    (h : l[i]? = some a) : a ∈ l := by
  have hi : i < l.length := by
    by_contra hc
    rw [List.getElem?_eq_none (le_of_not_lt hc)] at h
    cases h
  rw [List.getElem?_eq_getElem hi] at h
  rw [← Option.some.inj h]
  exact l.getElem_mem hi

theorem snd_mem_of_mem_enum {α : Type} {l : List α} {x : Nat × α}
    (hx : x ∈ l.enum) : x.2 ∈ l := by
  rw [List.mem_enum_iff_getElem?] at hx
  exact mem_of_getElem?_some hx

theorem enumFrom_filter_map_snd {α : Type} (P : α → Bool) :
    ∀ (l : List α) (n : Nat),
      (((l.enumFrom n).filter fun jq => P jq.2).map Prod.snd) = l.filter P := by
  intro l
  induction l with
  | nil => intro n; rfl
  | cons a t ih =>
    intro n
    show ((((n, a) :: t.enumFrom (n + 1)).filter fun jq => P jq.2).map Prod.snd) = _
    cases hP : P a with
    | true => simp [List.filter_cons, hP, ih (n + 1)]
    | false => simp [List.filter_cons, hP, ih (n + 1)]

theorem enum_filter_map_snd {α : Type} (P : α → Bool) (l : List α) :
    ((l.enum.filter fun jq => P jq.2).map Prod.snd) = l.filter P :=
  enumFrom_filter_map_snd P l 0

theorem sameCep_map_snd (l : List AddressPoint) (co : Option String) :
    (sameCep l co).map Prod.snd = l.filter fun p => p.cep == co := by
  unfold sameCep
  exact enum_filter_map_snd (fun p => p.cep == co) l

theorem enumFrom_filter_head_fst {α : Type} (P : α → Bool) :
    ∀ (l : List α) (n : Nat) (hd : Nat × α),
      (((l.enumFrom n).filter fun jq => P jq.2).head? = some hd) →
      hd.1 = n + l.findIdx P := by
  intro l
  induction l with
  | nil => intro n hd h; cases h
  | cons a t ih =>
    intro n hd h
    rw [show ((a :: t).enumFrom n).filter (fun jq => P jq.2)
          = ((n, a) :: t.enumFrom (n + 1)).filter (fun jq => P jq.2) from rfl] at h
    cases hP : P a with
    | true =>
      simp only [List.filter_cons, hP, if_pos, List.head?_cons] at h
      rw [← Option.some.inj h]
      rw [List.findIdx_cons]
      simp [hP]
    | false =>
      simp only [List.filter_cons, hP, Bool.false_eq_true, if_false] at h
      have := ih (n + 1) hd h
      rw [List.findIdx_cons]
      simp only [hP, cond_false]
      omega

theorem sameCep_head_fst {l : List AddressPoint} {co : Option String}
    {hd : Nat × AddressPoint} (hh : (sameCep l co).head? = some hd) :
    hd.1 = l.findIdx fun p => p.cep == co := by
  unfold sameCep at hh
  have := enumFrom_filter_head_fst (fun p => p.cep == co) l 0 hd hh
  simpa using this

theorem blockOf_cep {l : List AddressPoint} {y x : Nat × AddressPoint}
    (hx : x ∈ blockOf l y) (ht : cepTruthy x.2.cep = true) :
    cepTruthy y.2.cep = true ∧ y.2.cep = x.2.cep := by
  unfold blockOf at hx
  split at hx
  case isTrue h => exact ⟨h, ((mem_sameCep.1 hx).2).symm⟩
  case isFalse h => exact absurd ((List.mem_singleton.1 hx) ▸ ht) h

theorem cep_leader {l : List AddressPoint} {c : String}
    (hc : cepTruthy (some c) = true) {p0 : AddressPoint}
    (hp0 : p0 ∈ l) (hp0c : p0.cep = some c) :
    ∃ b, b ∈ l.enum ∧ isLeader l b = true ∧ b.2.cep = some c ∧
      blockOf l b = sameCep l (some c) ∧
      b.1 = l.findIdx fun p => p.cep == some c := by
  obtain ⟨i, hi, hieq⟩ := List.getElem_of_mem hp0
  have hx : (i, p0) ∈ l.enum :=
    List.mem_enum_iff_getElem?.2 (by rw [List.getElem?_eq_getElem hi, hieq])
  have hxc : (i, p0) ∈ sameCep l (some c) := mem_sameCep.2 ⟨hx, hp0c⟩
  obtain ⟨b, hh⟩ : ∃ b, (sameCep l (some c)).head? = some b := by
    cases hsc : sameCep l (some c) with
    | nil => rw [hsc] at hxc; cases hxc
    | cons a t => exact ⟨a, rfl⟩
  have hbmem : b ∈ sameCep l (some c) := List.mem_of_mem_head? hh
  obtain ⟨hbe, hbc⟩ := mem_sameCep.1 hbmem
  refine ⟨b, hbe, ?_, hbc, ?_, sameCep_head_fst hh⟩
  · exact isLeader_iff.2 (Or.inr (by rw [hbc, hh]; rfl))
  · unfold blockOf
    rw [hbc, hc]
    simp

theorem groupPass_perm (l : List AddressPoint) : List.Perm (groupPass l) l := by
  rw [groupPass_eq_groupSpec]
  exact groupSpec_perm l

theorem nodup_split_not_mem {α : Type} {a : α} {s t : List α}
    (h : (s ++ a :: t).Nodup) : a ∉ s ∧ a ∉ t := by
  rw [List.nodup_append] at h
  exact ⟨fun hs => h.2.2 hs (List.mem_cons_self a t),
         fun ht => (List.nodup_cons.1 h.2.1).1 ht⟩

theorem groupPass_contiguous (l : List AddressPoint) (c : String)
    (hc : cepTruthy (some c) = true) (p0 : AddressPoint)
    (hp0 : p0 ∈ l) (hp0c : p0.cep = some c) :
    ∃ A B, groupPass l = A ++ (l.filter fun p => p.cep == some c) ++ B ∧
      (∀ q ∈ A, q.cep ≠ some c) ∧ (∀ q ∈ B, q.cep ≠ some c) := by
  obtain ⟨b, hbe, hbl, hbc, hblock, hbidx⟩ := cep_leader hc hp0 hp0c
  have hbf : b ∈ l.enum.filter (isLeader l) := List.mem_filter.2 ⟨hbe, hbl⟩
  obtain ⟨S, T, hST⟩ := List.append_of_mem hbf
  have hnd : (l.enum.filter (isLeader l)).Nodup := (enum_nodup l).filter _
  rw [hST] at hnd
  obtain ⟨hbS, hbT⟩ := nodup_split_not_mem hnd
  have hexcl : ∀ (W : List (Nat × AddressPoint)), b ∉ W →
      (∀ y ∈ W, y ∈ l.enum.filter (isLeader l)) →
      ∀ q ∈ (W.flatMap (blockOf l)).map Prod.snd, q.cep ≠ some c := by
    intro W hbW hWf q hq hqc
    obtain ⟨x, hx, hxq⟩ := List.mem_map.1 hq
    obtain ⟨y, hyW, hxy⟩ := List.mem_flatMap.1 hx
    obtain ⟨hye, hyl⟩ := List.mem_filter.1 (hWf y hyW)
    have hxcep : x.2.cep = some c := by rw [hxq]; exact hqc
    have ht : cepTruthy x.2.cep = true := by rw [hxcep]; exact hc
    obtain ⟨hyt, hyc⟩ := blockOf_cep hxy ht
    have hyb : y = b :=
      leader_unique hye hbe hyl hbl hyt (by rw [hyc, hxcep, hbc])
    exact hbW (hyb ▸ hyW)
  refine ⟨(S.flatMap (blockOf l)).map Prod.snd, (T.flatMap (blockOf l)).map Prod.snd,
      ?_, ?_, ?_⟩
  · rw [groupPass_eq_groupSpec]
    unfold groupSpec leadBlocks
    rw [hST]
    simp only [List.flatMap_append, List.flatMap_cons, List.map_append]
    rw [hblock, sameCep_map_snd]
    simp [List.append_assoc]
  · exact hexcl S hbS fun y hy => by rw [hST]; exact List.mem_append_left _ hy
  · exact hexcl T hbT fun y hy => by
      rw [hST]; exact List.mem_append_right _ (List.mem_cons_of_mem _ hy)

theorem groupPass_group_order (l : List AddressPoint) (c₁ c₂ : String)
    (hc₁ : cepTruthy (some c₁) = true) (hc₂ : cepTruthy (some c₂) = true)
    (p₁ p₂ : AddressPoint) (hp₁ : p₁ ∈ l) (hpc₁ : p₁.cep = some c₁)
    (hp₂ : p₂ ∈ l) (hpc₂ : p₂.cep = some c₂)
    (horder : (l.findIdx fun p => p.cep == some c₁) <
              (l.findIdx fun p => p.cep == some c₂)) :
    ∃ A B C, groupPass l =
      A ++ (l.filter fun p => p.cep == some c₁) ++ B ++
        (l.filter fun p => p.cep == some c₂) ++ C := by
  obtain ⟨b₁, hb₁e, hb₁l, hb₁c, hb₁block, hb₁idx⟩ := cep_leader hc₁ hp₁ hpc₁
  obtain ⟨b₂, hb₂e, hb₂l, hb₂c, hb₂block, hb₂idx⟩ := cep_leader hc₂ hp₂ hpc₂
  have hflt : b₁.1 < b₂.1 := by rw [hb₁idx, hb₂idx]; exact horder
  have hb₁f : b₁ ∈ l.enum.filter (isLeader l) := List.mem_filter.2 ⟨hb₁e, hb₁l⟩
  have hb₂f : b₂ ∈ l.enum.filter (isLeader l) := List.mem_filter.2 ⟨hb₂e, hb₂l⟩
  obtain ⟨S, T, hST⟩ := List.append_of_mem hb₁f
  have hp := (enum_pairwise_fst_lt l).sublist
    (List.filter_sublist l.enum (p := isLeader l))
  rw [hST] at hp
  have hb₂T : b₂ ∈ T := by
    have h2 := hb₂f
    rw [hST] at h2
    rcases List.mem_append.1 h2 with h | h
    · have := (List.pairwise_append.1 hp).2.2 b₂ h b₁ (List.mem_cons_self _ _)
      omega
    · rcases List.mem_cons.1 h with h | h
      · rw [h] at hflt
        exact absurd hflt (lt_irrefl _)
      · exact h
  obtain ⟨U, V, hUV⟩ := List.append_of_mem hb₂T
  refine ⟨(S.flatMap (blockOf l)).map Prod.snd, (U.flatMap (blockOf l)).map Prod.snd,
          (V.flatMap (blockOf l)).map Prod.snd, ?_⟩
  rw [groupPass_eq_groupSpec]
  unfold groupSpec leadBlocks
  rw [hST, hUV]
  simp only [List.flatMap_append, List.flatMap_cons, List.map_append]
  rw [hb₁block, hb₂block, sameCep_map_snd, sameCep_map_snd]
  simp [List.append_assoc]

theorem flatMap_filter_untruthy (l : List AddressPoint) :
    ∀ (L : List (Nat × AddressPoint)),
      ((L.flatMap (blockOf l)).filter fun x => !cepTruthy x.2.cep)
        = L.filter fun b => !cepTruthy b.2.cep := by
  intro L
  induction L with
  | nil => rfl
  | cons b L ih =>
    rw [List.flatMap_cons, List.filter_append, ih, List.filter_cons]
    cases hb : cepTruthy b.2.cep with
    | true =>
      have hnil : ((blockOf l b).filter fun x => !cepTruthy x.2.cep) = [] := by
        apply List.filter_eq_nil_iff.2
        intro x hx
        unfold blockOf at hx
        rw [hb] at hx
        simp only [if_pos] at hx
        have := (mem_sameCep.1 hx).2
        rw [this, hb]
        simp
      rw [hnil]
      simp [hb]
    | false =>
      have hsing : ((blockOf l b).filter fun x => !cepTruthy x.2.cep) = [b] := by
        unfold blockOf
        rw [hb]
        simp [hb]
      rw [hsing]
      simp [hb]

theorem groupPass_ungrouped (l : List AddressPoint) :
    ((groupPass l).filter fun p => !cepTruthy p.cep)
      = l.filter fun p => !cepTruthy p.cep := by
  rw [groupPass_eq_groupSpec]
  unfold groupSpec leadBlocks
  rw [List.filter_map Prod.snd]
  rw [show ((fun p => !cepTruthy p.cep) ∘ Prod.snd)
        = (fun x : Nat × AddressPoint => !cepTruthy x.2.cep) from rfl]
  rw [flatMap_filter_untruthy]
  rw [List.filter_filter]
  have hcong : (l.enum.filter fun a => !cepTruthy a.2.cep && isLeader l a)
      = l.enum.filter fun jq => !cepTruthy jq.2.cep := by
    apply List.filter_congr
    intro x _
    cases hq : cepTruthy x.2.cep with
    | false =>
      have : isLeader l x = true := isLeader_iff.2 (Or.inl hq)
      rw [this]
      simp
    | true => simp [hq]
  rw [hcong]
  exact enum_filter_map_snd (fun p => !cepTruthy p.cep) l

theorem groupPass_id_of_no_cep (l : List AddressPoint)
    (h : ∀ p ∈ l, p.cep = none) : groupPass l = l := by
  rw [groupPass_eq_groupSpec]
  unfold groupSpec leadBlocks
  have h1 : l.enum.filter (isLeader l) = l.enum := by
    apply List.filter_eq_self.2
    intro x hx
    exact isLeader_iff.2 (Or.inl (by rw [h x.2 (snd_mem_of_mem_enum hx)]; rfl))
  rw [h1]
  have h2 : l.enum.flatMap (blockOf l) = l.enum := by
    rw [List.flatMap_congr (g := fun x => [x])]
    · simp
    · intro x hx
      simp [blockOf, cepTruthy, h x.2 (snd_mem_of_mem_enum hx)]
  rw [h2, List.enum_map_snd]

/-!
## Order Reconciler correctness under exact-match geometry
-/

theorem findIdx_of_unique {α : Type} (P : α → Bool) :
    ∀ (l : List α) (j : Nat) (hj : j < l.length),
      P (l.get ⟨j, hj⟩) = true →
      (∀ k (hk : k < l.length), P (l.get ⟨k, hk⟩) = true → j ≤ k) →
      l.findIdx P = j := by
  intro l
  induction l with
  | nil => intro j hj; cases hj
  | cons a t ih =>
    intro j hj hPj hmin
    rw [List.findIdx_cons]
    cases hPa : P a with
    | true =>
      have h0 : j ≤ 0 := hmin 0 (Nat.succ_pos _) hPa
      simp [Nat.le_zero.1 h0]
    | false =>
      cases j with
      | zero =>
        have h : P a = true := hPj
        rw [h] at hPa
        cases hPa
      | succ j' =>
        have hj' : j' < t.length := Nat.lt_of_succ_lt_succ hj
        have hPj' : P (t.get ⟨j', hj'⟩) = true := hPj
        have hmin' : ∀ k (hk : k < t.length), P (t.get ⟨k, hk⟩) = true → j' ≤ k := by
          intro k hk hPk
          have := hmin (k + 1) (Nat.succ_lt_succ hk) hPk
          omega
        simp only [cond_false]
        rw [ih j' hj' hPj' hmin']

/-- Under a bijective exact-match hypothesis — each waypoint is within
tolerance of exactly the geometry coordinate at position `σ i` — the
recovered geometry position of waypoint `i` is `σ i`. -/
theorem geoIdx_of_unique_match (pts : List AddressPoint)
    (geometry : List (ℚ × ℚ)) (σ : Equiv.Perm (Fin pts.length))
    (hg : geometry.length = pts.length)
    (hmatch : ∀ (i j : Fin pts.length),
      (near (geometry.get (Fin.cast hg.symm j)) (pts.get i) = true) ↔ j = σ i) :
    ∀ i : Fin pts.length, geoIdx geometry (pts.get i) = Int.ofNat (σ i) := by
  intro i
  unfold geoIdx
  have hj : ((σ i : Nat)) < geometry.length := by rw [hg]; exact (σ i).isLt
  have hPj : near (geometry.get ⟨(σ i : Nat), hj⟩) (pts.get i) = true := by
    have h := (hmatch i (σ i)).2 rfl
    rw [show geometry.get ⟨(σ i : Nat), hj⟩ = geometry.get (Fin.cast hg.symm (σ i))
          from congrArg geometry.get (Fin.ext rfl)]
    exact h
  have hmin : ∀ k (hk : k < geometry.length),
      near (geometry.get ⟨k, hk⟩) (pts.get i) = true → (σ i : Nat) ≤ k := by
    intro k hk hPk
    have hk' : k < pts.length := by rw [← hg]; exact hk
    have heq : (⟨k, hk'⟩ : Fin pts.length) = σ i := by
      apply (hmatch i ⟨k, hk'⟩).1
      rw [show geometry.get (Fin.cast hg.symm ⟨k, hk'⟩) = geometry.get ⟨k, hk⟩
            from congrArg geometry.get (Fin.ext rfl)]
      exact hPk
    have hkv : k = (σ i : Nat) := congrArg Fin.val heq
    omega
  have hfi : geometry.findIdx (fun g => near g (pts.get i)) = (σ i : Nat) :=
    findIdx_of_unique _ geometry (σ i : Nat) hj hPj hmin
  have hsome : geometry.findIdx? (fun g => near g (pts.get i)) = some (σ i : Nat) :=
    List.findIdx?_eq_some_iff_findIdx_eq.2 ⟨hj, hfi⟩
  rw [hsome]

/-- A stable sort by an integer key that enumerates `0, …, n-1` via the
permutation `σ` places the waypoint with key `m` at output position `m`. -/
theorem insertionSort_perm_key (key : AddressPoint → Int) (pts : List AddressPoint)
    (σ : Equiv.Perm (Fin pts.length))
    (hkeyval : ∀ i : Fin pts.length, key (pts.get i) = Int.ofNat (σ i)) :
    ∀ m : Fin pts.length,
      (List.insertionSort (fun a b => key a ≤ key b) pts)[(m : Nat)]?
        = pts[((σ.symm m : Fin pts.length) : Nat)]? := by
  classical
  have hperm : List.Perm (List.insertionSort (fun a b => key a ≤ key b) pts) pts :=
    List.perm_insertionSort _ pts
  have htot : IsTotal AddressPoint (fun a b => key a ≤ key b) :=
    ⟨fun a b => le_total (key a) (key b)⟩
  have htrans : IsTrans AddressPoint (fun a b => key a ≤ key b) :=
    ⟨fun a b c h1 h2 => le_trans h1 h2⟩
  have hsort : (List.insertionSort (fun a b => key a ≤ key b) pts).Sorted
      (fun a b => key a ≤ key b) :=
    List.sorted_insertionSort _ pts
  have hkeys_pts : List.Perm (pts.map key) ((List.range pts.length).map Int.ofNat) := by
    have h1 : pts.map key = (List.finRange pts.length).map fun i => Int.ofNat (σ i) := by
      apply List.ext_getElem
      · simp
      · intro m hm1 hm2
        have hm : m < pts.length := by simpa using hm1
        simp only [List.getElem_map, List.getElem_finRange]
        rw [show pts[m] = pts.get ⟨m, hm⟩ from rfl, hkeyval]
        congr 2
    have h2 : List.Perm ((List.finRange pts.length).map fun i => Int.ofNat (σ i))
        ((List.finRange pts.length).map fun i : Fin pts.length => Int.ofNat i) := by
      have hp : List.Perm ((List.finRange pts.length).map σ) (List.finRange pts.length) :=
        (List.perm_ext_iff_of_nodup ((List.nodup_finRange pts.length).map σ.injective)
          (List.nodup_finRange pts.length)).2 (by
            intro a
            simp only [List.mem_map, List.mem_finRange, true_and, iff_true]
            exact ⟨σ.symm a, by simp⟩)
      have h := hp.map fun i : Fin pts.length => Int.ofNat i
      rw [List.map_map] at h
      exact h
    have h3 : ((List.finRange pts.length).map fun i : Fin pts.length => Int.ofNat i)
        = (List.range pts.length).map Int.ofNat := by
      apply List.ext_getElem
      · simp
      · intro m hm1 hm2
        simp [List.getElem_finRange]
    rw [h1, ← h3]
    exact h2
  have hkeys_out : (List.insertionSort (fun a b => key a ≤ key b) pts).map key
      = (List.range pts.length).map Int.ofNat := by
    refine @List.eq_of_perm_of_sorted ℤ (fun a b => a ≤ b)
      ⟨fun a b h1 h2 => le_antisymm h1 h2⟩ _ _
      ((hperm.map key).trans hkeys_pts) ?_ ?_
    · exact List.pairwise_map.2 hsort
    · have h := List.pairwise_lt_range pts.length
      exact List.pairwise_map.2 (h.imp fun h2 => Int.ofNat_le.2 (le_of_lt h2))
  have hlen : (List.insertionSort (fun a b => key a ≤ key b) pts).length = pts.length :=
    hperm.length_eq
  intro m
  have hm : (m : Nat) < (List.insertionSort (fun a b => key a ≤ key b) pts).length := by
    rw [hlen]; exact m.isLt
  have hkq : key ((List.insertionSort (fun a b => key a ≤ key b) pts).get ⟨m, hm⟩)
      = Int.ofNat m := by
    have h1 := congrArg (fun t => t[(m : Nat)]?) hkeys_out
    simp only [List.getElem?_map] at h1
    rw [List.getElem?_eq_getElem hm,
        List.getElem?_eq_getElem (by simp [m.isLt] :
          (m : Nat) < (List.range pts.length).length)] at h1
    simp only [Option.map_some'] at h1
    have h2 := Option.some.inj h1
    rw [show (List.insertionSort (fun a b => key a ≤ key b) pts)[(m : Nat)]
          = (List.insertionSort (fun a b => key a ≤ key b) pts).get ⟨m, hm⟩ from rfl] at h2
    rw [h2, List.getElem_range]
  have hqpts : (List.insertionSort (fun a b => key a ≤ key b) pts).get ⟨m, hm⟩ ∈ pts :=
    hperm.mem_iff.1 (List.get_mem _ _ _)
  obtain ⟨i, hi, hiq⟩ := List.getElem_of_mem hqpts
  have hσi : σ ⟨i, hi⟩ = m := by
    have h := hkeyval ⟨i, hi⟩
    rw [show pts.get ⟨i, hi⟩ = pts[i] from rfl, hiq, hkq] at h
    exact Fin.ext (Int.ofNat.inj h).symm
  have hsymm : σ.symm m = ⟨i, hi⟩ := by rw [← hσi, Equiv.symm_apply_apply]
  rw [hsymm]
  rw [List.getElem?_eq_getElem hm, List.getElem?_eq_getElem hi]
  rw [hiq]
  rfl

/-- Order Reconciler on a synthetic geometry that is exactly the waypoint
coordinates in the permutation `σ` (each waypoint within tolerance of exactly
the coordinate at position `σ i`): the output is a permutation of the input
and realises `σ` exactly — position `m` of the output holds waypoint
`σ⁻¹ m`. -/
theorem orderByGeometry_exact (pts : List AddressPoint)
    (geometry : List (ℚ × ℚ)) (σ : Equiv.Perm (Fin pts.length))
    (hg : geometry.length = pts.length)
    (hmatch : ∀ (i j : Fin pts.length),
      (near (geometry.get (Fin.cast hg.symm j)) (pts.get i) = true) ↔ j = σ i) :
    List.Perm (orderByGeometry geometry pts) pts ∧
    ∀ m : Fin pts.length,
      (orderByGeometry geometry pts)[(m : Nat)]?
        = pts[((σ.symm m : Fin pts.length) : Nat)]? := by
  refine ⟨List.perm_insertionSort _ pts, ?_⟩
  exact insertionSort_perm_key (geoIdx geometry) pts σ
    (geoIdx_of_unique_match pts geometry σ hg hmatch)

/-!
## Distance Annotator facts
-/

theorem assignDistances_length (legs : List Leg) (ordered : List AddressPoint) :
    (assignDistances legs ordered).length = ordered.length := by
  simp [assignDistances]

theorem assignDistances_getElem?_zero (legs : List Leg) (ordered : List AddressPoint) :
    (assignDistances legs ordered)[0]? = ordered[0]? := by
  unfold assignDistances
  rw [List.getElem?_map, List.getElem?_enum]
  cases hp : ordered[0]? <;> simp

theorem assignDistances_getElem?_pos (legs : List Leg) (ordered : List AddressPoint)
    (i : Nat) (h0 : 0 < i) :
    (assignDistances legs ordered)[i]? =
      (ordered[i]?).map fun p =>
        { p with distanceFromPrev := some (legDist legs (i - 1)) } := by
  unfold assignDistances
  rw [List.getElem?_map, List.getElem?_enum]
  cases hp : ordered[i]? with
  | none => rfl
  | some p =>
    have hne : ¬ (i = 0) := by omega
    simp [hne]

theorem assignDistances_cep {legs : List Leg} {ordered : List AddressPoint}
    {q : AddressPoint} (h : q ∈ assignDistances legs ordered) :
    ∃ p ∈ ordered, q.cep = p.cep := by
  unfold assignDistances at h
  obtain ⟨ip, hip, hq⟩ := List.mem_map.1 h
  refine ⟨ip.2, snd_mem_of_mem_enum hip, ?_⟩
  rw [← hq]
  by_cases h0 : ip.1 = 0 <;> simp [h0]

theorem reorderStart_subset {pts : List AddressPoint} {s : Nat}
    {p : AddressPoint} (h : p ∈ reorderStart pts s) : p ∈ pts := by
  unfold reorderStart at h
  rcases List.mem_append.1 h with h | h
  · cases hp : pts[s]? with
    | none => rw [hp] at h; cases h
    | some q =>
      rw [hp] at h
      rw [List.mem_singleton.1 h]
      exact mem_of_getElem?_some hp
  · obtain ⟨x, hx, hxp⟩ := List.mem_map.1 h
    rw [← hxp]
    exact snd_mem_of_mem_enum ((List.mem_filter.1 hx).1)

theorem orderByGeometry_subset {g : List (ℚ × ℚ)} {pts : List AddressPoint}
    {p : AddressPoint} (h : p ∈ orderByGeometry g pts) : p ∈ pts :=
  (List.perm_insertionSort _ pts).mem_iff.1 h

/-!
## Frame property of the heap-style run
-/

/-- A stored record with its (mutable in the source) `distanceFromPrev`
field erased; two records agree on `clearDist` exactly when they agree on
every other field. -/
def clearDist (p : AddressPoint) : AddressPoint :=
  { p with distanceFromPrev := none }

theorem storeAssignStep_proj (legs : List Leg) (st : List AddressPoint)
    (ii : Nat × Nat) :
    (storeAssignStep legs st ii).length = st.length ∧
    ∀ k : Nat, ((storeAssignStep legs st ii)[k]?).map clearDist
          = (st[k]?).map clearDist := by
  unfold storeAssignStep
  split
  · exact ⟨rfl, fun k => rfl⟩
  · cases hp : st[ii.2]? with
    | none => exact ⟨rfl, fun k => rfl⟩
    | some p =>
      refine ⟨List.length_set st _ _, ?_⟩
      intro k
      rw [List.getElem?_set]
      by_cases hk : ii.2 = k
      · subst hk
        have hlt : ii.2 < st.length := by
          by_contra hc
          rw [List.getElem?_eq_none (le_of_not_lt hc)] at hp
          cases hp
        rw [if_pos rfl, if_pos hlt, hp]
        rfl
      · rw [if_neg hk]

theorem storeAssign_foldl_proj (legs : List Leg) :
    ∀ (pairs : List (Nat × Nat)) (store : List AddressPoint),
      (pairs.foldl (storeAssignStep legs) store).length = store.length ∧
      ∀ k : Nat, ((pairs.foldl (storeAssignStep legs) store)[k]?).map clearDist
            = (store[k]?).map clearDist := by
  intro pairs
  induction pairs with
  | nil => exact fun store => ⟨rfl, fun k => rfl⟩
  | cons ii pairs ih =>
    intro store
    rw [List.foldl_cons]
    obtain ⟨hl1, hp1⟩ := storeAssignStep_proj legs store ii
    obtain ⟨hl2, hp2⟩ := ih (storeAssignStep legs store ii)
    exact ⟨hl2.trans hl1, fun k => (hp2 k).trans (hp1 k)⟩

theorem storeAssignDistances_proj (store : List AddressPoint) (legs : List Leg)
    (recon : List Nat) :
    (storeAssignDistances store legs recon).length = store.length ∧
    ∀ k : Nat, ((storeAssignDistances store legs recon)[k]?).map clearDist
          = (store[k]?).map clearDist :=
  storeAssign_foldl_proj legs recon.enum store

/-!
## Concrete fixtures used by witnesses and counterexamples
-/

/-- Waypoint at integer coordinate `(k, k)`, stop/sequence `k`, no optional
fields. -/
def wpt (k : ℚ) : AddressPoint :=
  { stop := .num k, sequence := .num k, lat := .num k, lng := .num k }

/-- Waypoint at `(k, k)` carrying CEP code `c`. -/
def wptCep (k : ℚ) (c : String) : AddressPoint :=
  { stop := .num k, sequence := .num k, lat := .num k, lng := .num k,
    cep := some c }

/-- Oracle response: one trip whose geometry is the diagonal points
`(k, k)` for `k < n` (in `[lng, lat]` order) with the given legs. -/
def diagTrip (coords : List ℚ) (ds : List ℚ) : TripResponse :=
  { trips := some [{ geometry := some (coords.map fun k => (k, k)),
                     legs := some (ds.map fun d => ⟨d⟩) }] }

/-!
## C4 — Delivery Tracker reset
-/

unseal Rat.sub Rat.add Rat.mul Rat.inv in
/-- C4 counterexample: computing a new Route does not reset the delivered
set.  From a state with two points and position 0 marked delivered,
`calculateRoute` produces a non-empty route while `delivered` stays `{0}`
(the claim requires it to revert to the empty set). -/
theorem claim_C4_counterexample :
    (calculateRoute
        { points := [wpt 0, wpt 1], route := [], polyline := [],
          startIndex := 0, delivered := {0} }
        (diagTrip [0, 1] [100])).route ≠ [] ∧
    (calculateRoute
        { points := [wpt 0, wpt 1], route := [], polyline := [],
          startIndex := 0, delivered := {0} }
        (diagTrip [0, 1] [100])).delivered = {0} := by
  decide

/-- C4 amended: the delivered set is reset to empty when new source data is
loaded (`handleUpload`); computing a new Route (`calculateRoute`) leaves the
delivered set unchanged — it is not reset. -/
theorem claim_C4_reset :
    (∀ (s : AppState) (json : List RawRow), (handleUpload s json).delivered = ∅) ∧
    (∀ (s : AppState) (data : TripResponse),
      (calculateRoute s data).delivered = s.delivered) :=
  ⟨fun _ _ => rfl, fun _ _ => rfl⟩

/-!
## C7 — short-circuit on fewer than two waypoints
-/

/-- C7: with fewer than two waypoints the Sequencing Client short-circuits
before the network call: for every oracle outcome `resp` (success or
failure alike — the result does not depend on it) and every starting index,
the result is the input list unchanged with empty geometry. -/
theorem claim_C7_short_circuit (points : List AddressPoint) (startIndex : Nat)
    (resp : Except String TripResponse) (h : points.length < 2) :
    fetchOptimizedTripE points startIndex resp = .ok (points, []) := by
  unfold fetchOptimizedTripE
  rw [if_pos h]

unseal Rat.sub Rat.add Rat.mul Rat.inv in
theorem claim_C7_witness :
    fetchOptimizedTripE [wpt 0] 5 (.error "network down") = .ok ([wpt 0], []) :=
  claim_C7_short_circuit [wpt 0] 5 (.error "network down") (by decide)

/-!
## C8 — oracle failure behaviour
-/

theorem tripParts_of_no_trip {data : TripResponse} (h : tripOf data = none) :
    tripGeometry data = [] ∧ tripLegs data = [] := by
  unfold tripGeometry tripLegs
  rw [h]
  exact ⟨rfl, rfl⟩

unseal Rat.sub Rat.add Rat.mul Rat.inv in
/-- C8 counterexample: `fetch` does not reject on a non-2xx status and the
source never checks `res.ok` (lines 65–66), so a non-2xx response whose body
is OSRM's usual JSON error object (no `trips` field, modelled as `⟨none⟩`)
is *not* surfaced as a failure: `res.json()` succeeds, the pipeline runs
with empty geometry and legs, and `calculateRoute` replaces the previously
displayed route `[wpt 7]` with a zero-distance reordering of the points and
clears the polyline — both conclusions of the claim fail on this reachable
input. -/
theorem claim_C8_counterexample :
    (calculateRouteE
        { points := [wpt 0, wpt 1], route := [wpt 7], polyline := [(7, 7)],
          startIndex := 0, delivered := ∅ } (.ok { trips := none })).isOk = true ∧
    (calculateRouteRun
        { points := [wpt 0, wpt 1], route := [wpt 7], polyline := [(7, 7)],
          startIndex := 0, delivered := ∅ } (.ok { trips := none })).route
      = [wpt 0, { wpt 1 with distanceFromPrev := some 0 }] ∧
    (calculateRouteRun
        { points := [wpt 0, wpt 1], route := [wpt 7], polyline := [(7, 7)],
          startIndex := 0, delivered := ∅ } (.ok { trips := none })).route ≠ [wpt 7] ∧
    (calculateRouteRun
        { points := [wpt 0, wpt 1], route := [wpt 7], polyline := [(7, 7)],
          startIndex := 0, delivered := ∅ } (.ok { trips := none })).polyline = [] := by
  decide

/-- C8 amended: only failures that reject the `fetch`/`res.json()` promise —
network errors and malformed (non-JSON) bodies — propagate to the caller of
the sequencing operation uncaught, with no retry, and then the previously
computed route, polyline and delivered set are left unchanged.  A non-2xx
response whose body still decodes as JSON is not detected (`res.ok` is
never checked): the call succeeds, and for an error body carrying no trip
the prior Route is replaced by the rotation-ordered waypoint list annotated
with zero distances, and the geometry by the empty polyline. -/
theorem claim_C8_failure_propagation (s : AppState) (e : String)
    (data : TripResponse) (h2 : 2 ≤ s.points.length)
    (hnt : tripOf data = none) :
    (calculateRouteE s (.error e) = .error e ∧
     calculateRouteRun s (.error e) = s) ∧
    calculateRouteE s (.ok data)
      = .ok { s with
          route := groupPass (assignDistances []
            (orderByGeometry [] (reorderStart s.points s.startIndex))),
          polyline := [] } := by
  have h1 : fetchOptimizedTripE s.points s.startIndex (.error e) = .error e := by
    unfold fetchOptimizedTripE
    rw [if_neg (not_lt.2 h2)]
    rfl
  obtain ⟨hg, hl⟩ := tripParts_of_no_trip hnt
  refine ⟨⟨?_, ?_⟩, ?_⟩
  · unfold calculateRouteE
    rw [h1]
    rfl
  · unfold calculateRouteRun calculateRouteE
    rw [h1]
    rfl
  · have hok : fetchOptimizedTripE s.points s.startIndex (.ok data)
        = .ok (fetchOptimizedTrip s.points s.startIndex data) := by
      unfold fetchOptimizedTripE
      rw [if_neg (not_lt.2 h2)]
      rfl
    have hpipe : fetchOptimizedTrip s.points s.startIndex data
        = (groupPass (assignDistances []
            (orderByGeometry [] (reorderStart s.points s.startIndex))), []) := by
      unfold fetchOptimizedTrip
      rw [if_neg (not_lt.2 h2)]
      show (groupPass (assignDistances (tripLegs data)
          (orderByGeometry (tripGeometry data) (reorderStart s.points s.startIndex))),
          tripGeometry data) = _
      rw [hg, hl]
    unfold calculateRouteE
    rw [hok, hpipe]
    rfl

unseal Rat.sub Rat.add Rat.mul Rat.inv in
theorem claim_C8_witness :
    ((calculateRouteE
        { points := [wpt 0, wpt 1], route := [wpt 7], polyline := [(7, 7)],
          startIndex := 0, delivered := ∅ } (.error "boom")
       = .error "boom" ∧
      calculateRouteRun
        { points := [wpt 0, wpt 1], route := [wpt 7], polyline := [(7, 7)],
          startIndex := 0, delivered := ∅ } (.error "boom")
       = { points := [wpt 0, wpt 1], route := [wpt 7], polyline := [(7, 7)],
           startIndex := 0, delivered := ∅ }) ∧
     calculateRouteE
        { points := [wpt 0, wpt 1], route := [wpt 7], polyline := [(7, 7)],
          startIndex := 0, delivered := ∅ } (.ok { trips := none })
       = .ok { points := [wpt 0, wpt 1],
               route := groupPass (assignDistances []
                 (orderByGeometry [] (reorderStart [wpt 0, wpt 1] 0))),
               polyline := [], startIndex := 0, delivered := ∅ }) :=
  claim_C8_failure_propagation
    { points := [wpt 0, wpt 1], route := [wpt 7], polyline := [(7, 7)],
      startIndex := 0, delivered := ∅ } "boom" { trips := none }
    (by decide) (by decide)

/-!
## C10 — missing legs default to distance 0
-/

/-- C10: whenever the oracle's legs list is shorter than needed (including
the absent-trip case, where `tripLegs` is empty), the non-first waypoint at
a reconciled position with no corresponding leg receives
`distanceFromPrevious = 0`, not an absent value. -/
theorem claim_C10_missing_legs (data : TripResponse) (ordered : List AddressPoint)
    (i : Nat) (h0 : 0 < i) (hi : i < ordered.length)
    (hshort : (tripLegs data).length ≤ i - 1) :
    ∃ p, (assignDistances (tripLegs data) ordered)[i]? = some p ∧
      p.distanceFromPrev = some 0 := by
  rw [assignDistances_getElem?_pos _ _ i h0]
  obtain ⟨q, hq⟩ : ∃ q, ordered[i]? = some q := by
    rw [List.getElem?_eq_getElem hi]
    exact ⟨_, rfl⟩
  rw [hq]
  refine ⟨_, rfl, ?_⟩
  have hnone : (tripLegs data)[i - 1]? = none := List.getElem?_eq_none hshort
  simp [legDist, hnone]

unseal Rat.sub Rat.add Rat.mul Rat.inv in
theorem claim_C10_witness :
    ∃ p, (assignDistances (tripLegs (diagTrip [0, 1, 2] [100]))
        [wpt 0, wpt 1, wpt 2])[2]? = some p ∧
      p.distanceFromPrev = some 0 :=
  claim_C10_missing_legs (diagTrip [0, 1, 2] [100]) [wpt 0, wpt 1, wpt 2] 2
    (by decide) (by decide) (by decide)

/-!
## C3 — leg distances under grouping
-/

unseal Rat.sub Rat.add Rat.mul Rat.inv in
/-- C3 counterexample: with reconciled order `[w0, w1(Z), w2, w3(Z)]` and
legs `[100, 200, 300]`, grouping emits `[w0, w1, w3, w2]`; the waypoint at
output position 2 (`w3`) shows 300 — the leg of its *reconciled* position 3 —
whereas the claim requires the leg at the *output* position, `legs[1] = 200`. -/
theorem claim_C3_counterexample :
    ((fetchOptimizedTrip [wpt 0, wptCep 1 "Z", wpt 2, wptCep 3 "Z"] 0
        (diagTrip [0, 1, 2, 3] [100, 200, 300])).1.map
          fun p => p.distanceFromPrev)
      = [none, some 100, some 300, some 200] ∧
    legDist (tripLegs (diagTrip [0, 1, 2, 3] [100, 200, 300])) 1 = 200 ∧
    ¬ (((fetchOptimizedTrip [wpt 0, wptCep 1 "Z", wpt 2, wptCep 3 "Z"] 0
          (diagTrip [0, 1, 2, 3] [100, 200, 300])).1[2]?).map
            (fun p => p.distanceFromPrev)
        = some (some (legDist (tripLegs (diagTrip [0, 1, 2, 3] [100, 200, 300])) 1))) := by
  decide

/-- C3 amended: leg distances are indexed *and applied* positionally against
the pre-grouping reconciled order, and carried with each waypoint record
through grouping: the final output is a permutation of the annotated
reconciled list, in which the waypoint at reconciled position `i ≥ 1`
carries `legs[i-1]?.distance ?? 0` — so after grouping reorders waypoints,
the distance shown at an output position is the leg of the waypoint's
reconciled position, not of its output position. -/
theorem claim_C3_distances_carried (points : List AddressPoint)
    (startIndex : Nat) (data : TripResponse) (h2 : 2 ≤ points.length) :
    List.Perm (fetchOptimizedTrip points startIndex data).1
      (assignDistances (tripLegs data)
        (orderByGeometry (tripGeometry data) (reorderStart points startIndex))) ∧
    ∀ i : Nat, 0 < i →
      ((assignDistances (tripLegs data)
          (orderByGeometry (tripGeometry data) (reorderStart points startIndex)))[i]?).map
            (fun p => p.distanceFromPrev)
        = ((orderByGeometry (tripGeometry data) (reorderStart points startIndex))[i]?).map
            (fun _ => some (legDist (tripLegs data) (i - 1))) := by
  constructor
  · have h1 : (fetchOptimizedTrip points startIndex data).1
        = groupPass (assignDistances (tripLegs data)
            (orderByGeometry (tripGeometry data) (reorderStart points startIndex))) := by
      unfold fetchOptimizedTrip
      rw [if_neg (not_lt.2 h2)]
    rw [h1]
    exact groupPass_perm _
  · intro i h0
    rw [assignDistances_getElem?_pos _ _ i h0]
    cases hp : (orderByGeometry (tripGeometry data) (reorderStart points startIndex))[i]? <;>
      simp

unseal Rat.sub Rat.add Rat.mul Rat.inv in
theorem claim_C3_witness :
    List.Perm (fetchOptimizedTrip [wpt 0, wptCep 1 "Z", wpt 2, wptCep 3 "Z"] 0
        (diagTrip [0, 1, 2, 3] [100, 200, 300])).1
      (assignDistances (tripLegs (diagTrip [0, 1, 2, 3] [100, 200, 300]))
        (orderByGeometry (tripGeometry (diagTrip [0, 1, 2, 3] [100, 200, 300]))
          (reorderStart [wpt 0, wptCep 1 "Z", wpt 2, wptCep 3 "Z"] 0))) ∧
    ((assignDistances (tripLegs (diagTrip [0, 1, 2, 3] [100, 200, 300]))
        (orderByGeometry (tripGeometry (diagTrip [0, 1, 2, 3] [100, 200, 300]))
          (reorderStart [wpt 0, wptCep 1 "Z", wpt 2, wptCep 3 "Z"] 0)))[2]?).map
          (fun p => p.distanceFromPrev)
      = ((orderByGeometry (tripGeometry (diagTrip [0, 1, 2, 3] [100, 200, 300]))
          (reorderStart [wpt 0, wptCep 1 "Z", wpt 2, wptCep 3 "Z"] 0))[2]?).map
          (fun _ => some (legDist (tripLegs (diagTrip [0, 1, 2, 3] [100, 200, 300])) 1)) := by
  have h := claim_C3_distances_carried [wpt 0, wptCep 1 "Z", wpt 2, wptCep 3 "Z"] 0
    (diagTrip [0, 1, 2, 3] [100, 200, 300]) (by decide)
  exact ⟨h.1, h.2 2 (by decide)⟩

/-!
## C5 — in-place mutation of shared waypoint records
-/

unseal Rat.sub Rat.add Rat.mul Rat.inv in
/-- C5 counterexample: two successive runs over the same two-record store.
The first run produces the route `[0, 1]` and writes `distanceFromPrev =
100` into the record at store index 1; the second run (legs `[999]`) then
*overwrites* that same record — which the previously produced route still
points to — with `999`.  The prior Route's waypoint record is thus mutated
in place by the recomputation, contradicting the claim. -/
theorem claim_C5_counterexample :
    (fetchOptimizedTripStore [wpt 0, wpt 1] [0, 1] 0 (diagTrip [0, 1] [100])).2.1
      = [0, 1] ∧
    (((fetchOptimizedTripStore [wpt 0, wpt 1] [0, 1] 0
        (diagTrip [0, 1] [100])).1)[1]?).map (fun p => p.distanceFromPrev)
      = some (some 100) ∧
    (((fetchOptimizedTripStore
        (fetchOptimizedTripStore [wpt 0, wpt 1] [0, 1] 0 (diagTrip [0, 1] [100])).1
        [0, 1] 0 (diagTrip [0, 1] [999])).1)[1]?).map (fun p => p.distanceFromPrev)
      = some (some 999) := by
  decide

/-- C5 amended: a run returns a freshly built route index list, but mutates
the shared waypoint records in place; the mutation is confined to
`distanceFromPrev` — the store keeps its length and every record keeps all
its other fields (`clearDist` projection) across a run. -/
theorem claim_C5_frame (store : List AddressPoint) (idxs : List Nat)
    (start : Nat) (data : TripResponse) :
    ((fetchOptimizedTripStore store idxs start data).1).length = store.length ∧
    ∀ k : Nat,
      (((fetchOptimizedTripStore store idxs start data).1)[k]?).map clearDist
        = (store[k]?).map clearDist := by
  unfold fetchOptimizedTripStore
  by_cases h : idxs.length < 2
  · rw [if_pos h]
    exact ⟨rfl, fun _ => rfl⟩
  · rw [if_neg h]
    exact storeAssignDistances_proj store (tripLegs data) _

/-!
## C6 — Row Normalizer output
-/

/-- A raw cell holding a finite number. -/
def isNumCell : Option JsVal → Bool
  | some (.num (.num _)) => true
  | _ => false

theorem isNumCell_isFin {o : Option JsVal} (h : isNumCell o = true) :
    (fieldNumber o).isFin = true := by
  match o with
  | none => cases h
  | some (.num .nan) => cases h
  | some (.num (.num _)) => rfl
  | some (.str _) => cases h

unseal Rat.sub Rat.add Rat.mul Rat.inv in
/-- C6 counterexample: a row whose `Latitude` is the truthy non-numeric
string `"abc"` survives the presence filter, and `Number("abc")` yields
`NaN`: the emitted waypoint's `lat` is not finite, contradicting the claim
that every emitted Waypoint has finite numeric fields. -/
theorem claim_C6_counterexample :
    (parseRows [{ Stop := some (.num (.num 1)), Sequence := some (.num (.num 1)),
                  Latitude := some (.str "abc"),
                  Longitude := some (.num (.num 2)) }]).length = 1 ∧
    ((parseRows [{ Stop := some (.num (.num 1)), Sequence := some (.num (.num 1)),
                   Latitude := some (.str "abc"),
                   Longitude := some (.num (.num 2)) }]).map
        fun p => p.lat.isFin) = [false] := by
  decide

/-- C6 amended: the Row Normalizer's output is never longer than its input,
and every emitted Waypoint comes from a row whose `Stop`, `Sequence`,
`Latitude`, `Longitude` are all present and truthy (not missing, zero, `NaN`
or the empty string), with the four numeric fields the `Number()` coercions
of those cells; when those four cells are numeric values, the emitted fields
are finite.  (A truthy non-numeric string survives the filter and coerces to
`NaN`, the latent defect of spec §4.1/§7.) -/
theorem claim_C6_normalizer (rows : List RawRow) :
    (parseRows rows).length ≤ rows.length ∧
    ∀ p ∈ parseRows rows, ∃ r ∈ rows,
      (fieldTruthy r.Stop = true ∧ fieldTruthy r.Sequence = true ∧
       fieldTruthy r.Latitude = true ∧ fieldTruthy r.Longitude = true) ∧
      (p.stop = fieldNumber r.Stop ∧ p.sequence = fieldNumber r.Sequence ∧
       p.lat = fieldNumber r.Latitude ∧ p.lng = fieldNumber r.Longitude) ∧
      ((isNumCell r.Stop = true ∧ isNumCell r.Sequence = true ∧
        isNumCell r.Latitude = true ∧ isNumCell r.Longitude = true) →
        (p.stop.isFin = true ∧ p.sequence.isFin = true ∧
         p.lat.isFin = true ∧ p.lng.isFin = true)) := by
  constructor
  · unfold parseRows
    rw [List.length_map]
    exact List.length_filter_le _ _
  · intro p hp
    unfold parseRows at hp
    obtain ⟨r, hr, hpr⟩ := List.mem_map.1 hp
    obtain ⟨hrmem, hcond⟩ := List.mem_filter.1 hr
    simp only [Bool.and_eq_true] at hcond
    obtain ⟨⟨⟨h1, h2⟩, h3⟩, h4⟩ := hcond
    refine ⟨r, hrmem, ⟨h1, h2, h3, h4⟩, ?_, ?_⟩
    · rw [← hpr]
      exact ⟨rfl, rfl, rfl, rfl⟩
    · rintro ⟨n1, n2, n3, n4⟩
      rw [← hpr]
      exact ⟨isNumCell_isFin n1, isNumCell_isFin n2,
             isNumCell_isFin n3, isNumCell_isFin n4⟩

unseal Rat.sub Rat.add Rat.mul Rat.inv in
theorem claim_C6_witness :
    (parseRows [{ Stop := some (.num (.num 1)), Sequence := some (.num (.num 2)),
                  Latitude := some (.num (.num 10)),
                  Longitude := some (.num (.num 20)) }]).length ≤ 1 ∧
    ∃ r ∈ [({ Stop := some (.num (.num 1)), Sequence := some (.num (.num 2)),
              Latitude := some (.num (.num 10)),
              Longitude := some (.num (.num 20)) } : RawRow)],
      (fieldTruthy r.Stop = true ∧ fieldTruthy r.Sequence = true ∧
       fieldTruthy r.Latitude = true ∧ fieldTruthy r.Longitude = true) ∧
      (({ stop := .num 1, sequence := .num 2, lat := .num 10,
          lng := .num 20 } : AddressPoint).stop = fieldNumber r.Stop ∧
       ({ stop := .num 1, sequence := .num 2, lat := .num 10,
          lng := .num 20 } : AddressPoint).sequence = fieldNumber r.Sequence ∧
       ({ stop := .num 1, sequence := .num 2, lat := .num 10,
          lng := .num 20 } : AddressPoint).lat = fieldNumber r.Latitude ∧
       ({ stop := .num 1, sequence := .num 2, lat := .num 10,
          lng := .num 20 } : AddressPoint).lng = fieldNumber r.Longitude) ∧
      ((isNumCell r.Stop = true ∧ isNumCell r.Sequence = true ∧
        isNumCell r.Latitude = true ∧ isNumCell r.Longitude = true) →
        (({ stop := .num 1, sequence := .num 2, lat := .num 10,
            lng := .num 20 } : AddressPoint).stop.isFin = true ∧
         ({ stop := .num 1, sequence := .num 2, lat := .num 10,
            lng := .num 20 } : AddressPoint).sequence.isFin = true ∧
         ({ stop := .num 1, sequence := .num 2, lat := .num 10,
            lng := .num 20 } : AddressPoint).lat.isFin = true ∧
         ({ stop := .num 1, sequence := .num 2, lat := .num 10,
            lng := .num 20 } : AddressPoint).lng.isFin = true)) := by
  have h := claim_C6_normalizer
    [({ Stop := some (.num (.num 1)), Sequence := some (.num (.num 2)), Latitude := some (.num (.num 10)), Longitude := some (.num (.num 20)) } : RawRow)]
  exact ⟨h.1, h.2 ({ stop := .num 1, sequence := .num 2, lat := .num 10, lng := .num 20 } : AddressPoint) (by decide)⟩

/-!
## C9 — equivalence of the two pipeline variants without grouping codes
-/

/-- C9: when no waypoint carries a CEP, the grouping pipeline of
`src/app/page.tsx` and the pass-through pipeline of `src/unnamed/part_000`
agree exactly — same ordered list, same per-waypoint distances, same
geometry — for every starting index and every oracle response. -/
theorem claim_C9_equivalence (points : List AddressPoint) (startIndex : Nat)
    (data : TripResponse) (h : ∀ p ∈ points, p.cep = none) :
    fetchOptimizedTrip points startIndex data
      = fetchOptimizedTripNoGroup points startIndex data := by
  unfold fetchOptimizedTrip fetchOptimizedTripNoGroup
  by_cases hlen : points.length < 2
  · rw [if_pos hlen, if_pos hlen]
  · rw [if_neg hlen, if_neg hlen]
    show (groupPass (assignDistances (tripLegs data)
        (orderByGeometry (tripGeometry data) (reorderStart points startIndex))),
        tripGeometry data)
      = (assignDistances (tripLegs data)
          (orderByGeometry (tripGeometry data) (reorderStart points startIndex)),
        tripGeometry data)
    have hX : ∀ q ∈ assignDistances (tripLegs data)
        (orderByGeometry (tripGeometry data) (reorderStart points startIndex)),
        q.cep = none := by
      intro q hq
      obtain ⟨p, hpmem, hqp⟩ := assignDistances_cep hq
      rw [hqp]
      exact h p (reorderStart_subset (orderByGeometry_subset hpmem))
    rw [groupPass_id_of_no_cep _ hX]

unseal Rat.sub Rat.add Rat.mul Rat.inv in
theorem claim_C9_witness :
    fetchOptimizedTrip [wpt 0, wpt 1, wpt 2] 1 (diagTrip [1, 0, 2] [100, 200])
      = fetchOptimizedTripNoGroup [wpt 0, wpt 1, wpt 2] 1
          (diagTrip [1, 0, 2] [100, 200]) :=
  claim_C9_equivalence [wpt 0, wpt 1, wpt 2] 1 (diagTrip [1, 0, 2] [100, 200])
    (by decide)

/-!
## C1 — Grouping Pass guarantees
-/

/-- C1: for every input list (in the pipeline: the annotated reconciled
order of any oracle response), the Grouping Pass output is a permutation of
its input; all waypoints sharing a (truthy — the source treats the empty
string as absent, spec §9) groupingCode form one contiguous block equal to
the input's cep-filter; groups are emitted in the order of their first
member in the input order; ungrouped waypoints keep their relative order. -/
theorem claim_C1_grouping_pass (l : List AddressPoint) :
    List.Perm (groupPass l) l ∧
    (∀ c : String, cepTruthy (some c) = true →
      ∀ p0 ∈ l, p0.cep = some c →
      ∃ A B, groupPass l = A ++ (l.filter fun p => p.cep == some c) ++ B ∧
        (∀ q ∈ A, q.cep ≠ some c) ∧ (∀ q ∈ B, q.cep ≠ some c)) ∧
    (∀ c₁ c₂ : String, cepTruthy (some c₁) = true → cepTruthy (some c₂) = true →
      ∀ p₁ ∈ l, p₁.cep = some c₁ → ∀ p₂ ∈ l, p₂.cep = some c₂ →
      (l.findIdx fun p => p.cep == some c₁) < (l.findIdx fun p => p.cep == some c₂) →
      ∃ A B C, groupPass l =
        A ++ (l.filter fun p => p.cep == some c₁) ++ B ++
          (l.filter fun p => p.cep == some c₂) ++ C) ∧
    ((groupPass l).filter fun p => !cepTruthy p.cep)
      = l.filter fun p => !cepTruthy p.cep := by
  refine ⟨groupPass_perm l, ?_, ?_, groupPass_ungrouped l⟩
  · intro c hc p0 hp0 hp0c
    exact groupPass_contiguous l c hc p0 hp0 hp0c
  · intro c₁ c₂ hc₁ hc₂ p₁ hp₁ hpc₁ p₂ hp₂ hpc₂ horder
    exact groupPass_group_order l c₁ c₂ hc₁ hc₂ p₁ p₂ hp₁ hpc₁ hp₂ hpc₂ horder

unseal Rat.sub Rat.add Rat.mul Rat.inv in
theorem claim_C1_witness :
    List.Perm
      (groupPass [wpt 0, wptCep 1 "Z", wpt 2, wptCep 3 "Z", wptCep 4 "Y"])
      [wpt 0, wptCep 1 "Z", wpt 2, wptCep 3 "Z", wptCep 4 "Y"] ∧
    (∃ A B, groupPass [wpt 0, wptCep 1 "Z", wpt 2, wptCep 3 "Z", wptCep 4 "Y"]
        = A ++ ([wpt 0, wptCep 1 "Z", wpt 2, wptCep 3 "Z", wptCep 4 "Y"].filter
            fun p => p.cep == some "Z") ++ B ∧
        (∀ q ∈ A, q.cep ≠ some "Z") ∧ (∀ q ∈ B, q.cep ≠ some "Z")) ∧
    (∃ A B C, groupPass [wpt 0, wptCep 1 "Z", wpt 2, wptCep 3 "Z", wptCep 4 "Y"]
        = A ++ ([wpt 0, wptCep 1 "Z", wpt 2, wptCep 3 "Z", wptCep 4 "Y"].filter
            fun p => p.cep == some "Z") ++ B ++
          ([wpt 0, wptCep 1 "Z", wpt 2, wptCep 3 "Z", wptCep 4 "Y"].filter
            fun p => p.cep == some "Y") ++ C) ∧
    ((groupPass [wpt 0, wptCep 1 "Z", wpt 2, wptCep 3 "Z", wptCep 4 "Y"]).filter
        fun p => !cepTruthy p.cep)
      = [wpt 0, wptCep 1 "Z", wpt 2, wptCep 3 "Z", wptCep 4 "Y"].filter
          fun p => !cepTruthy p.cep := by
  have h := claim_C1_grouping_pass
    [wpt 0, wptCep 1 "Z", wpt 2, wptCep 3 "Z", wptCep 4 "Y"]
  refine ⟨h.1, ?_, ?_, h.2.2.2⟩
  · exact h.2.1 "Z" (by decide) (wptCep 1 "Z") (by decide) (by decide)
  · exact h.2.2.1 "Z" "Y" (by decide) (by decide) (wptCep 1 "Z") (by decide)
      (by decide) (wptCep 4 "Y") (by decide) (by decide) (by decide)

/-!
## C2 — Order Reconciler on a synthetic exact geometry
-/

/-- C2: when the geometry consists exactly of the waypoints' coordinates in
the permutation `σ` — every waypoint matches exactly the geometry coordinate
at position `σ i` within the `1e-3` tolerance and no other — the reconciled
output equals that permutation: each waypoint is assigned the position of
the first (here: unique) matching geometry coordinate and the waypoints are
sorted ascending by it, so output position `m` holds waypoint `σ⁻¹ m`. -/
theorem claim_C2_reconciler_exact (pts : List AddressPoint)
    (geometry : List (ℚ × ℚ)) (σ : Equiv.Perm (Fin pts.length))
    (hg : geometry.length = pts.length)
    (hmatch : ∀ (i j : Fin pts.length),
      (near (geometry.get (Fin.cast hg.symm j)) (pts.get i) = true) ↔ j = σ i) :
    List.Perm (orderByGeometry geometry pts) pts ∧
    ∀ m : Fin pts.length,
      (orderByGeometry geometry pts)[(m : Nat)]?
        = pts[((σ.symm m : Fin pts.length) : Nat)]? :=
  orderByGeometry_exact pts geometry σ hg hmatch

unseal Rat.sub Rat.add Rat.mul Rat.inv in
theorem claim_C2_witness :
    (orderByGeometry [(1, 1), (0, 0)] [wpt 0, wpt 1])[0]? = some (wpt 1) ∧
    (orderByGeometry [(1, 1), (0, 0)] [wpt 0, wpt 1])[1]? = some (wpt 0) := by
  have h := claim_C2_reconciler_exact [wpt 0, wpt 1] [(1, 1), (0, 0)]
    (Equiv.swap (⟨0, by decide⟩ : Fin [wpt 0, wpt 1].length) ⟨1, by decide⟩)
    (by decide) (by decide)
  have h0 := h.2 ⟨0, by decide⟩
  have h1 := h.2 ⟨1, by decide⟩
  constructor
  · rw [h0]; decide
  · rw [h1]; decide
